import Mathlib

/-!
Verification of the Vue 2.x observer subsystem
(`src/core/observer/{index,watcher,traverse}.js`).

We shallowly embed the JavaScript code in Lean.  JavaScript values are
modelled by `JVal` (with an explicit `nan` constructor so that the
NaN-is-not-equal-to-itself behaviour of `===` is visible); object and
array identity is modelled by a numeric heap id.  Side effects (warnings,
Dep notifications, error reports) are made explicit in the return values.

The Dep class (`dep.js`) is not part of the analysed sources; its
subscriber list is modelled from the spec (see `Dep.addSub` below).
-/

namespace Vue

/-- JavaScript values as the observer code discriminates them: `undefined`,
`null`, booleans, NaN, (finite) numbers, strings, and object/array
references carrying a heap identity. -/
inductive JVal where
  | undefined : JVal
  | nul : JVal
  | bool (b : Bool) : JVal
  | nan : JVal
  | num (q : ℚ) : JVal
  | str (s : String) : JVal
  | obj (id : ℕ) : JVal
  | arr (id : ℕ) : JVal
deriving DecidableEq, Repr

namespace JVal

/-- JavaScript strict equality `===`: no coercion across types, objects and
arrays compared by reference identity, and `NaN === NaN` is false. -/
def jsEq : JVal → JVal → Bool
  | .nan, _ => false
  | _, .nan => false
  | .undefined, .undefined => true
  | .nul, .nul => true
  | .bool a, .bool b => a == b
  | .num a, .num b => a == b
  | .str a, .str b => a == b
  | .obj a, .obj b => a == b
  | .arr a, .arr b => a == b
  | _, _ => false

/-- `isObject` from `core/util`: `obj !== null && typeof obj === 'object'`.
True exactly for object and array references. -/
def isObject : JVal → Bool
  | .obj _ => true
  | .arr _ => true
  | _ => false

/-- `isUndef` from `core/util`: `v === undefined || v === null`. -/
def isUndef : JVal → Bool
  | .undefined => true
  | .nul => true
  | _ => false

/-- `isPrimitive` from `core/util`: strings, numbers, symbols and booleans. -/
def isPrimitive : JVal → Bool
  | .str _ => true
  | .num _ => true
  | .nan => true
  | .bool _ => true
  | _ => false

end JVal

/-!
## `defineReactive`'s setter (`core/observer/index.js`, `reactiveSetter`)

The setter closes over the field's current value `val`.  It compares the
incoming value with `===`, with the extra `newVal !== newVal && value !==
value` clause letting a NaN-over-NaN write through the early return.  On an
actual change it stores the new value, re-observes it (the resulting child
observer exists only for containers) and notifies the field's Dep.  We
model the plain-data path (no pre-existing getter/setter pair).
-/

/-- Result of one run of the reactive setter: the value now stored in the
closure, whether `observe` was invoked on the new value, and whether the
field's Dep was notified. -/
structure SetterRun where
  stored : JVal
  observedNew : Bool
  notified : Bool
deriving DecidableEq, Repr

/-- `reactiveSetter` from `defineReactive`:
early-returns when `newVal === value || (newVal !== newVal && value !==
value)`; otherwise stores `newVal`, runs `observe(newVal)` and
`dep.notify()`. -/
def reactiveSetter (value newVal : JVal) : SetterRun :=
  if newVal.jsEq value || (!newVal.jsEq newVal && !value.jsEq value) then
    { stored := value, observedNew := false, notified := false }
  else
    { stored := newVal, observedNew := true, notified := true }

/-!
## Dep subscriber state and Watcher dependency bookkeeping
(`core/observer/watcher.js`, `Watcher.get` / `addDep` / `cleanupDeps`)

Deps are identified by their numeric id; the global state maps each dep id
to its ordered subscriber list (watcher ids).  `dep.js` itself is not among
the analysed sources, so `addSub`/`removeSub` are modelled from the spec.
-/

/-- The subscriber lists of all Deps, keyed by dep id. -/
structure DepsState where
  subs : ℕ → List ℕ

namespace DepsState

/-- Modelled from the spec: `Dep.addSub(w)` — idempotent add keyed by
Watcher identity, appending to the ordered subscriber list
(`dep.js` is not among the analysed sources). -/
def addSub (S : DepsState) (d wid : ℕ) : DepsState :=
  if wid ∈ S.subs d then S
  else { subs := Function.update S.subs d (S.subs d ++ [wid]) }

/-- Modelled from the spec: `Dep.removeSub(w)` — idempotent removal keyed
by Watcher identity (`dep.js` is not among the analysed sources). -/
def removeSub (S : DepsState) (d wid : ℕ) : DepsState :=
  { subs := Function.update S.subs d ((S.subs d).erase wid) }

end DepsState

/-- The dependency-bookkeeping fields of a Watcher: its id, the previous
cycle's dep list/set (`deps`/`depIds`) and the current cycle's
(`newDeps`/`newDepIds`), plus the `active` flag. -/
structure WatcherB where
  wid : ℕ
  active : Bool
  deps : List ℕ
  depIds : Finset ℕ
  newDeps : List ℕ
  newDepIds : Finset ℕ

namespace Watcher

/-- `Watcher.addDep(dep)`: skip if already collected this cycle; otherwise
record in `newDepIds`/`newDeps` and, unless subscribed in the previous
cycle, add self to the dep's subscriber list. -/
def addDep (p : WatcherB × DepsState) (d : ℕ) : WatcherB × DepsState :=
  let w := p.1
  let S := p.2
  if d ∈ w.newDepIds then (w, S)
  else
    let w' := { w with newDepIds := insert d w.newDepIds,
                       newDeps := w.newDeps ++ [d] }
    if d ∈ w.depIds then (w', S) else (w', S.addSub d w.wid)

/-- `Watcher.cleanupDeps()`: unsubscribe from every previous-cycle dep not
touched this cycle (the `while (i--)` loop walks `deps` from the end, i.e.
`foldr`), then swap the new sets into place and clear the new ones. -/
def cleanupDeps (w : WatcherB) (S : DepsState) : WatcherB × DepsState :=
  let S' := w.deps.foldr
    (fun d T => if d ∈ w.newDepIds then T else T.removeSub d w.wid) S
  ({ w with depIds := w.newDepIds, newDepIds := ∅,
            deps := w.newDeps, newDeps := [] }, S')

/-- The dependency collection performed during one evaluation: each read of
a reactive field calls `dep.depend()`, i.e. `Dep.target.addDep(dep)`; the
trace of dep ids read is `reads`. -/
def collect (w : WatcherB) (S : DepsState) (reads : List ℕ) :
    WatcherB × DepsState :=
  reads.foldl addDep (w, S)

/-- The bookkeeping effect of `Watcher.get()`: collect the reads, then
`cleanupDeps` (run in the `finally` block, hence also when the getter
threw). -/
def getB (w : WatcherB) (S : DepsState) (reads : List ℕ) :
    WatcherB × DepsState :=
  let p := collect w S reads
  cleanupDeps p.1 p.2

end Watcher

/-!
## Computed watchers: `Watcher.update` / `Watcher.evaluate`
(`core/observer/watcher.js` lines 183–226 and 277–284)
-/

/-- The fields of a Watcher that `update`/`evaluate` exercise.  `getterVal`
is the value the wrapped getter currently computes; `runCount` counts the
getter's invocations (each `this.get()` call); `depSubs` is
`this.dep.subs.length`, the number of subscribers of a computed watcher's
own Dep. -/
structure CWatcher where
  computed : Bool
  sync : Bool
  deep : Bool
  dirty : Bool
  value : JVal
  getterVal : JVal
  runCount : ℕ
  depSubs : ℕ
deriving DecidableEq, Repr

/-- What `Watcher.update` dispatched to: mark idle-dirty only (lazy
computed), eagerly re-evaluate and possibly notify the own Dep (activated
computed), run inline (sync), or hand off to the scheduler. -/
inductive UpdAction where
  | lazyDirty : UpdAction
  | eagerEval (notifiedOwnDep : Bool) : UpdAction
  | syncRun : UpdAction
  | queued : UpdAction
deriving DecidableEq, Repr

/-- `Watcher.update()`: a computed watcher with no subscribers of its own
Dep only sets `dirty`; with subscribers it runs `getAndInvoke(() =>
this.dep.notify())` (re-running the getter and notifying its own Dep when
the value-change condition fires); otherwise `run()` inline when `sync`,
else `queueWatcher(this)`. -/
def Watcher.update (w : CWatcher) : CWatcher × UpdAction :=
  if w.computed then
    if w.depSubs = 0 then ({ w with dirty := true }, .lazyDirty)
    else
      let nv := w.getterVal
      let w1 := { w with runCount := w.runCount + 1 }
      if !nv.jsEq w.value || nv.isObject || w.deep then
        ({ w1 with value := nv, dirty := false }, .eagerEval true)
      else (w1, .eagerEval false)
  else if w.sync then (w, .syncRun)
  else (w, .queued)

/-- `Watcher.evaluate()`: recompute via `this.get()` only when `dirty`,
clearing the flag; otherwise return the cached value untouched. -/
def Watcher.evaluate (w : CWatcher) : JVal × CWatcher :=
  if w.dirty then
    ({ w with value := w.getterVal, runCount := w.runCount + 1,
              dirty := false }.value,
     { w with value := w.getterVal, runCount := w.runCount + 1,
              dirty := false })
  else (w.value, w)

/-- One call to the global `handleError(err, vm, info)` hook. -/
structure ErrReport where
  err : String
  vm : String
  info : String
deriving DecidableEq, Repr

/-- `Watcher.get()` in full: `pushTarget(this)` attributes the read trace
`reads` to this watcher; the getter's outcome is `outcome`; a throw from a
user watcher's getter is caught and routed to `handleError` with the
watcher's expression and vm while a non-user watcher rethrows; the
`finally` block runs `cleanupDeps` in every case. -/
def Watcher.get (user : Bool) (expression vm : String) (w : WatcherB)
    (S : DepsState) (reads : List ℕ) (outcome : Except String JVal) :
    Except String JVal × (WatcherB × DepsState) × List ErrReport :=
  let bk := Watcher.getB w S reads
  match outcome with
  | .ok v => (.ok v, bk, [])
  | .error e =>
    if user then
      (.ok .undefined, bk,
        [⟨e, vm, "getter for watcher \"" ++ expression ++ "\""⟩])
    else (.error e, bk, [])

/-!
## `Watcher.teardown` / `Watcher.run`
(`core/observer/watcher.js` lines 232–237 and 300–315)
-/

/-- The fields of a Watcher that `teardown`/`run` exercise. -/
structure TWatcher where
  wid : ℕ
  active : Bool
  deps : List ℕ
deriving DecidableEq, Repr

/-- The owning vm's state as `teardown` sees it. -/
structure VmState where
  watchers : List ℕ
  isBeingDestroyed : Bool
deriving DecidableEq, Repr

/-- `Watcher.teardown()`: when active, remove self from `vm._watchers`
(skipped when the vm is being destroyed), call `removeSub` on every dep of
the previous cycle (the `while (i--)` loop, i.e. `foldr`), and clear the
`active` flag; a no-op otherwise. -/
def Watcher.teardown (w : TWatcher) (vm : VmState) (S : DepsState) :
    TWatcher × VmState × DepsState :=
  if w.active then
    let vm' := if vm.isBeingDestroyed then vm
               else { vm with watchers := vm.watchers.erase w.wid }
    let S' := w.deps.foldr (fun e T => T.removeSub e w.wid) S
    ({ w with active := false }, vm', S')
  else (w, vm, S)

/-- `Watcher.run()`: the scheduler job — executes `getAndInvoke(this.cb)`
only when the watcher is still active.  Returns whether the job body (and
hence possibly the callback) was executed at all. -/
def Watcher.run (w : TWatcher) : Bool :=
  w.active

/-!
## `Watcher.getAndInvoke` (`core/observer/watcher.js` lines 239–270)
-/

/-- The fields of a Watcher that `getAndInvoke` reads and writes. -/
structure GAIWatcher where
  value : JVal
  dirty : Bool
  deep : Bool
  user : Bool
  expression : String
  vm : String
deriving DecidableEq, Repr

/-- `Watcher.getAndInvoke(cb)` after `this.get()` returned `newValue`:
fire the callback when the value changed by identity, is an object, or the
watcher is deep; `cbThrows` is the exception the callback would raise, if
any — caught and reported for user watchers, propagated otherwise.
Returns the updated watcher, the `(value, oldValue)` pair the callback was
invoked with (if it was), and the error reports. -/
def getAndInvoke (w : GAIWatcher) (newValue : JVal) (cbThrows : Option String) :
    Except String (GAIWatcher × Option (JVal × JVal) × List ErrReport) :=
  if !newValue.jsEq w.value || newValue.isObject || w.deep then
    let oldValue := w.value
    let w' := { w with value := newValue, dirty := false }
    match cbThrows with
    | none => .ok (w', some (newValue, oldValue), [])
    | some e =>
      if w.user then
        .ok (w', some (newValue, oldValue),
          [⟨e, w.vm, "callback for watcher \"" ++ w.expression ++ "\""⟩])
      else .error e
  else .ok (w, none, [])

/-- The `(value, oldValue)` pair `getAndInvoke`'s callback was invoked
with, when the run completed normally and the callback fired. -/
def invokedArgs
    (r : Except String (GAIWatcher × Option (JVal × JVal) × List ErrReport)) :
    Option (JVal × JVal) :=
  match r with
  | .ok (_, args, _) => args
  | .error _ => none

/-!
## `observe` (`core/observer/index.js` lines 128–160)
-/

/-- The aspects of a value that `observe` inspects: whether it is an
object, a VNode, already carries an `__ob__` Observer (by id), is an array
or plain object, is extensible, and is a Vue instance. -/
structure OValue where
  isObj : Bool
  isVNode : Bool
  ob : Option ℕ
  plainOrArray : Bool
  extensible : Bool
  isVue : Bool
deriving DecidableEq, Repr

/-- The global state `observe` consults: the `shouldObserve` toggle,
whether this is server rendering, and the id a newly created Observer
would get. -/
structure OEnv where
  shouldObserve : Bool
  serverRendering : Bool
  nextObId : ℕ
deriving DecidableEq, Repr

/-- `observe(value, asRootData)`: bail out for non-objects and VNodes;
reuse an attached `__ob__`; otherwise create a new Observer only when
observation is enabled, not server rendering, the value is an array or
plain object, extensible, and not a Vue instance.  Returns the observer id
returned (if any), whether a new Observer was created and attached, and
whether `vmCount` was incremented (`asRootData && ob`). -/
def observe (v : OValue) (env : OEnv) (asRoot : Bool) :
    Option ℕ × Bool × Bool :=
  if !v.isObj || v.isVNode then (none, false, false)
  else
    match v.ob with
    | some k => (some k, false, asRoot)
    | none =>
      if env.shouldObserve && !env.serverRendering && v.plainOrArray &&
          v.extensible && !v.isVue then
        (some env.nextObId, true, asRoot)
      else (none, false, false)

/-!
## `set` / `del` (`core/observer/index.js` lines 274–335)

Targets live in a heap of plain objects and arrays addressed by the id in
a `JVal.obj`/`JVal.arr` reference.  JavaScript behaviour that decides the
claims is modelled exactly: the `in` operator throws a `TypeError` when
its right operand is not an object, reading a property of `undefined` or
`null` throws, and reading a property of another primitive boxes it and
yields `undefined`.
-/

/-- A plain keyed container: own enumerable fields (in insertion order),
whether an Observer is attached, its `vmCount`, and the `_isVue` mark. -/
structure PlainObj where
  fields : List (String × JVal)
  hasOb : Bool
  vmCount : ℕ
  isVue : Bool
deriving DecidableEq, Repr

/-- An array container: elements, Observer attachment, `vmCount`. -/
structure ArrObj where
  elems : List JVal
  hasOb : Bool
  vmCount : ℕ
deriving DecidableEq, Repr

/-- The object/array heap. -/
structure Heap where
  objs : ℕ → Option PlainObj
  arrs : ℕ → Option ArrObj

/-- The observable effects of one `set`/`del` call. -/
structure MutEffects where
  warnedNonContainer : Bool
  warnedAvoidAdd : Bool
  structuralNotify : Bool
  definedReactive : Option String
  wroteExisting : Option String
  splicedIndex : Option ℕ
deriving DecidableEq, Repr

/-- Effects of a call that so far only possibly issued the non-container
warning. -/
def initEffects (warned : Bool) : MutEffects :=
  { warnedNonContainer := warned, warnedAvoidAdd := false,
    structuralNotify := false, definedReactive := none,
    wroteExisting := none, splicedIndex := none }

/-- The own keys of `Object.prototype`, inherited by every plain object
(the `key in Object.prototype` check). -/
def protoKeys : List String :=
  ["constructor", "hasOwnProperty", "isPrototypeOf",
   "propertyIsEnumerable", "toLocaleString", "toString", "valueOf"]

/-- `isValidArrayIndex(key)` for a string key: a plain run of digits
denoting the index. -/
def arrayIndex (key : String) : Option ℕ :=
  if key.data ≠ [] ∧ key.data.all Char.isDigit then
    some (key.data.foldl (fun n c => 10 * n + (c.toNat - 48)) 0)
  else none

/-- Reading `target.__ob__`: throws for `undefined`/`null`, yields
`undefined` for other primitives (boxing), and yields the Observer's
`vmCount` for observed containers. -/
def readOb (h : Heap) : JVal → Except String (Option ℕ)
  | .undefined => .error "TypeError: cannot read __ob__ of undefined"
  | .nul => .error "TypeError: cannot read __ob__ of null"
  | .obj i =>
    .ok ((h.objs i).bind fun o => if o.hasOb then some o.vmCount else none)
  | .arr i =>
    .ok ((h.arrs i).bind fun a => if a.hasOb then some a.vmCount else none)
  | _ => .ok none

/-- Reading `target._isVue` (only reached for targets whose property reads
do not throw). -/
def isVueOf (h : Heap) : JVal → Bool
  | .obj i => (h.objs i).elim false (·.isVue)
  | _ => false

/-- `hasOwn(target, key)`: own-property check.
`Object.prototype.hasOwnProperty.call` boxes primitives, so a string
primitive has own index properties and `length`; boxed numbers and
booleans have no own properties.  For arrays only numeric element keys are
modelled. -/
def hasOwnOf (h : Heap) (t : JVal) (key : String) : Bool :=
  match t with
  | .obj i => (h.objs i).elim false fun o => (o.fields.map Prod.fst).contains key
  | .arr i =>
    (h.arrs i).elim false fun a =>
      (arrayIndex key).elim false fun n => n < a.elems.length
  | .str s => (arrayIndex key).elim (key == "length") fun n => n < s.length
  | _ => false

/-- The `key in target` test: throws a `TypeError` when the target is not
an object; for objects it sees own keys and the `Object.prototype` chain
(for arrays additionally `length`; other `Array.prototype` members are
not modelled, and no claim exercises them). -/
def keyInTarget (h : Heap) (t : JVal) (key : String) : Except String Bool :=
  match t with
  | .obj i =>
    .ok ((h.objs i).elim false fun o =>
      (o.fields.map Prod.fst).contains key || protoKeys.contains key)
  | .arr i =>
    .ok ((h.arrs i).elim false fun a =>
      ((arrayIndex key).elim false fun n => n < a.elems.length) ||
        key == "length" || protoKeys.contains key)
  | _ => .error "TypeError: cannot use in operator on non-object"

/-- `target[key] = val` for an existing field (the field's reactive or
plain setter runs; for an instrumented field the stored value and
notification follow `reactiveSetter`). -/
def heapWriteKey (h : Heap) (t : JVal) (key : String) (v : JVal) : Heap :=
  match t with
  | .obj i =>
    { h with objs := fun j =>
        if j = i then
          (h.objs i).map fun o =>
            { o with fields := o.fields.map fun kv =>
                if kv.1 = key then (kv.1, v) else kv }
        else h.objs j }
  | _ => h

/-- Adding a brand-new field `key` to the target. -/
def heapAddKey (h : Heap) (t : JVal) (key : String) (v : JVal) : Heap :=
  match t with
  | .obj i =>
    { h with objs := fun j =>
        if j = i then (h.objs i).map fun o =>
          { o with fields := o.fields ++ [(key, v)] }
        else h.objs j }
  | _ => h

/-- `delete target[key]`. -/
def heapDeleteKey (h : Heap) (t : JVal) (key : String) : Heap :=
  match t with
  | .obj i =>
    { h with objs := fun j =>
        if j = i then (h.objs i).map fun o =>
          { o with fields := o.fields.filter fun kv => kv.1 ≠ key }
        else h.objs j }
  | _ => h

/-- `set(target, key, val)` after the array fast path: the `key in target`
test (which throws for non-objects), the existing-key write, the
Vue-instance/root-data guard, the unobserved plain add, and finally
`defineReactive` plus a structural notify. -/
def setRest (h : Heap) (t : JVal) (key : String) (v : JVal)
    (e0 : MutEffects) : MutEffects × Except String (Heap × JVal) :=
  match keyInTarget h t key with
  | .error m => (e0, .error m)
  | .ok hin =>
    if hin && !protoKeys.contains key then
      ({ e0 with wroteExisting := some key },
        .ok (heapWriteKey h t key v, v))
    else
      match readOb h t with
      | .error m => (e0, .error m)
      | .ok obv =>
        if isVueOf h t || (obv.elim false fun c => c != 0) then
          ({ e0 with warnedAvoidAdd := true }, .ok (h, v))
        else
          match obv with
          | none => (e0, .ok (heapAddKey h t key v, v))
          | some _ =>
            ({ e0 with definedReactive := some key, structuralNotify := true },
              .ok (heapAddKey h t key v, v))

/-- `set(target, key, val)` (`index.js` lines 274–304): dev warning for
undefined/null/primitive targets, array splice fast path (through the
intercepted mutator, which notifies the array's structural Dep), then
`setRest`. -/
def jsSet (h : Heap) (target : JVal) (key : String) (v : JVal) :
    MutEffects × Except String (Heap × JVal) :=
  let e0 := initEffects (target.isUndef || target.isPrimitive)
  match target with
  | .arr i =>
    match arrayIndex key with
    | some n =>
      match h.arrs i with
      | some a =>
        let padded := a.elems ++ List.replicate (n - a.elems.length) .undefined
        let newElems := if n < padded.length then padded.set n v
                        else padded ++ [v]
        ({ e0 with splicedIndex := some n, structuralNotify := a.hasOb },
          .ok ({ h with arrs := fun j =>
                  if j = i then some { a with elems := newElems }
                  else h.arrs j }, v))
      | none => (e0, .error "dangling array reference")
    | none => setRest h target key v e0
  | _ => setRest h target key v e0

/-- `del(target, key)` after the array fast path. -/
def delRest (h : Heap) (t : JVal) (key : String) (e0 : MutEffects) :
    MutEffects × Except String Heap :=
  match readOb h t with
  | .error m => (e0, .error m)
  | .ok obv =>
    if isVueOf h t || (obv.elim false fun c => c != 0) then
      ({ e0 with warnedAvoidAdd := true }, .ok h)
    else
      if !hasOwnOf h t key then (e0, .ok h)
      else
        match t with
        | .str _ =>
          -- `delete target[key]` on an own property of a boxed string:
          -- index/length properties are non-configurable, and this is
          -- strict-mode module code, so the delete throws
          (e0, .error "TypeError: cannot delete property of a string")
        | _ =>
          let h' := heapDeleteKey h t key
          match obv with
          | none => (e0, .ok h')
          | some _ => ({ e0 with structuralNotify := true }, .ok h')

/-- `del(target, key)` (`index.js` lines 309–335): dev warning for
undefined/null/primitive targets, array splice fast path, then
`delRest`. -/
def jsDel (h : Heap) (target : JVal) (key : String) :
    MutEffects × Except String Heap :=
  let e0 := initEffects (target.isUndef || target.isPrimitive)
  match target with
  | .arr i =>
    match arrayIndex key with
    | some n =>
      match h.arrs i with
      | some a =>
        ({ e0 with splicedIndex := some n, structuralNotify := a.hasOb },
          .ok { h with arrs := fun j =>
                  if j = i then some { a with elems := a.elems.eraseIdx n }
                  else h.arrs j })
      | none => (e0, .error "dangling array reference")
    | none => delRest h target key e0
  | _ => delRest h target key e0

/-!
## `traverse` (`core/observer/traverse.js`)

Container graphs are a heap of nodes addressed by reference id; each node
carries its child values (walked in reverse by the `while (i--)` loops),
the `Object.isFrozen` and VNode marks, and — when observed — its
Observer's structural Dep id (`val.__ob__.dep.id`).  The JavaScript
recursion is unbounded; the embedding adds an explicit fuel argument, and
the cycle-safety theorem shows a fuel of more than the number of dep ids
always suffices, which is exactly the termination argument the visited-set
provides. -/

/-- A value as `_traverse` discriminates it: a non-container, or a
reference into the container heap. -/
inductive TVal where
  | prim : TVal
  | ref (i : ℕ) : TVal
deriving DecidableEq, Repr

/-- One container: children, frozen/VNode marks, optional structural Dep
id. -/
structure TNode where
  kids : List TVal
  frozen : Bool
  isVNode : Bool
  depId : Option ℕ
deriving DecidableEq, Repr

/-- The container heap. -/
structure THeap where
  nodes : ℕ → Option TNode

/-- `_traverse(val, seen)` with explicit fuel, threading the `seen` set of
dep ids: return on non-containers, frozen values and VNodes; for an
observed container whose dep id is already in `seen`, return without
descending; otherwise record the id and walk the children (in the source's
reverse index order). -/
def traverseF : ℕ → THeap → TVal → Finset ℕ → Option (Finset ℕ)
  | 0, _, _, _ => none
  | fuel + 1, h, v, seen =>
    match v with
    | .prim => some seen
    | .ref i =>
      match h.nodes i with
      | none => some seen
      | some node =>
        if node.frozen || node.isVNode then some seen
        else
          match node.depId with
          | some d =>
            if d ∈ seen then some seen
            else
              node.kids.reverse.foldlM (fun s k => traverseF fuel h k s)
                (insert d seen)
          | none =>
            node.kids.reverse.foldlM (fun s k => traverseF fuel h k s) seen

/-- `traverse(val)`: run `_traverse` on the module-level `seenObjects` set
and then clear it.  Returns the final state of `seenObjects`: `some ∅`
when `_traverse` completed within the fuel. -/
def traverse (h : THeap) (fuel : ℕ) (v : TVal) (seenObjects : Finset ℕ) :
    Option (Finset ℕ) :=
  (traverseF fuel h v seenObjects).map fun _ => (∅ : Finset ℕ)

/-- A fully observed heap: every non-frozen, non-VNode container carries a
structural Dep id, and all dep ids come from the finite set `D` (as
guaranteed by `observe` attaching an Observer to every reachable
container). -/
def ObservedHeap (h : THeap) (D : Finset ℕ) : Prop :=
  ∀ i n, h.nodes i = some n → n.frozen = false → n.isVNode = false →
    ∃ d, n.depId = some d ∧ d ∈ D

end Vue

namespace Vue

/-- C2: writing an identical value leaves the stored value unchanged and
does not notify; writing NaN over NaN does not notify; writing a genuinely
different value stores it, observes it, and notifies. -/
theorem reactiveSetter_change_detection (value newVal : JVal) :
    (newVal.jsEq value = true →
      reactiveSetter value newVal =
        { stored := value, observedNew := false, notified := false }) ∧
    (newVal = .nan → value = .nan →
      reactiveSetter value newVal =
        { stored := value, observedNew := false, notified := false }) ∧
    (newVal.jsEq value = false → (newVal = .nan → value ≠ .nan) →
      reactiveSetter value newVal =
        { stored := newVal, observedNew := true, notified := true }) := by
  refine ⟨?_, ?_, ?_⟩
  · intro h
    simp [reactiveSetter, h]
  · intro h1 h2
    subst h1; subst h2
    simp [reactiveSetter, JVal.jsEq]
  · intro h1 h2
    have hval : (!newVal.jsEq newVal && !value.jsEq value) = false := by
      cases newVal <;> cases value <;> simp_all [JVal.jsEq]
    simp [reactiveSetter, h1, hval]

/-- Witness for C2 at concrete inputs. -/
theorem reactiveSetter_change_detection_witness :
    reactiveSetter (.num 1) (.num 2) =
      { stored := .num 2, observedNew := true, notified := true } := by
  have h := (reactiveSetter_change_detection (.num 1) (.num 2)).2.2
  exact h (by decide) (by decide)

/-- Fields of the watcher that no `addDep` call changes. -/
theorem addDep_foldl_fixed (reads : List ℕ) (p : WatcherB × DepsState) :
    ((reads.foldl Watcher.addDep p).1).wid = p.1.wid ∧
    ((reads.foldl Watcher.addDep p).1).active = p.1.active ∧
    ((reads.foldl Watcher.addDep p).1).depIds = p.1.depIds ∧
    ((reads.foldl Watcher.addDep p).1).deps = p.1.deps := by
  induction reads generalizing p with
  | nil => exact ⟨rfl, rfl, rfl, rfl⟩
  | cons r rest ih =>
    rw [List.foldl_cons]
    have hstep : (Watcher.addDep p r).1.wid = p.1.wid ∧
        (Watcher.addDep p r).1.active = p.1.active ∧
        (Watcher.addDep p r).1.depIds = p.1.depIds ∧
        (Watcher.addDep p r).1.deps = p.1.deps := by
      simp only [Watcher.addDep]
      split
      · exact ⟨rfl, rfl, rfl, rfl⟩
      · split <;> exact ⟨rfl, rfl, rfl, rfl⟩
    obtain ⟨h1, h2, h3, h4⟩ := ih (Watcher.addDep p r)
    exact ⟨h1.trans hstep.1, h2.trans hstep.2.1, h3.trans hstep.2.2.1,
      h4.trans hstep.2.2.2⟩

/-- After folding `addDep` over the read trace, the current-cycle id set is
the old one united with the ids read. -/
theorem addDep_foldl_newDepIds (reads : List ℕ) (p : WatcherB × DepsState) :
    ((reads.foldl Watcher.addDep p).1).newDepIds =
      p.1.newDepIds ∪ reads.toFinset := by
  induction reads generalizing p with
  | nil => simp
  | cons r rest ih =>
    rw [List.foldl_cons]
    simp only [Watcher.addDep]
    by_cases hr : r ∈ p.1.newDepIds
    · rw [if_pos hr, ih]
      ext d
      simp only [Finset.mem_union, List.toFinset_cons, Finset.mem_insert,
        List.mem_toFinset]
      constructor
      · rintro (h | h)
        · exact Or.inl h
        · exact Or.inr (Or.inr h)
      · rintro (h | h | h)
        · exact Or.inl h
        · exact Or.inl (h ▸ hr)
        · exact Or.inr h
    · rw [if_neg hr]
      have hsplit :
          ((if r ∈ p.1.depIds then
              ({ p.1 with newDepIds := insert r p.1.newDepIds,
                          newDeps := p.1.newDeps ++ [r] }, p.2)
            else
              ({ p.1 with newDepIds := insert r p.1.newDepIds,
                          newDeps := p.1.newDeps ++ [r] },
                p.2.addSub r p.1.wid)).1).newDepIds =
            insert r p.1.newDepIds := by
        split <;> rfl
      have hfst :
          ∀ q : WatcherB × DepsState,
            ((rest.foldl Watcher.addDep q).1).newDepIds =
              q.1.newDepIds ∪ rest.toFinset := fun q => ih q
      rcases Classical.em (r ∈ p.1.depIds) with hd | hd
      · rw [if_pos hd, hfst]
        ext d
        simp only [Finset.mem_union, Finset.mem_insert, List.toFinset_cons,
          List.mem_toFinset]
        tauto
      · rw [if_neg hd, hfst]
        ext d
        simp only [Finset.mem_union, Finset.mem_insert, List.toFinset_cons,
          List.mem_toFinset]
        tauto

/-- The current-cycle dep list stays duplicate-free and mirrors the
current-cycle id set through an `addDep` fold. -/
theorem addDep_foldl_newDeps (reads : List ℕ) (p : WatcherB × DepsState)
    (hnd : p.1.newDeps.Nodup)
    (hts : p.1.newDeps.toFinset = p.1.newDepIds) :
    ((reads.foldl Watcher.addDep p).1).newDeps.Nodup ∧
    ((reads.foldl Watcher.addDep p).1).newDeps.toFinset =
      ((reads.foldl Watcher.addDep p).1).newDepIds := by
  induction reads generalizing p with
  | nil => exact ⟨hnd, hts⟩
  | cons r rest ih =>
    rw [List.foldl_cons]
    simp only [Watcher.addDep]
    by_cases hr : r ∈ p.1.newDepIds
    · rw [if_pos hr]
      exact ih p hnd hts
    · rw [if_neg hr]
      have hrl : r ∉ p.1.newDeps := by
        intro hmem
        exact hr (hts ▸ List.mem_toFinset.mpr hmem)
      have hnd' : (p.1.newDeps ++ [r]).Nodup := by
        simp [List.nodup_append, hnd, hrl]
      have hts' : (p.1.newDeps ++ [r]).toFinset = insert r p.1.newDepIds := by
        ext d
        simp only [List.toFinset_append, Finset.mem_union, List.mem_toFinset,
          List.toFinset_cons, List.toFinset_nil, Finset.mem_insert,
          Finset.mem_singleton, List.mem_singleton, insert_emptyc_eq]
        rw [← List.mem_toFinset, hts]
        tauto
      rcases Classical.em (r ∈ p.1.depIds) with hd | hd
      · rw [if_pos hd]
        exact ih _ hnd' hts'
      · rw [if_neg hd]
        exact ih _ hnd' hts'

/-- The per-dep subscription-count invariant: the watcher appears in a
dep's subscriber list exactly once if the dep is in its previous- or
current-cycle id set, and not at all otherwise. -/
def SubCountInv (p : WatcherB × DepsState) : Prop :=
  ∀ d, ((p.2.subs d).count p.1.wid) =
    if d ∈ p.1.depIds ∪ p.1.newDepIds then 1 else 0

/-- One `addDep` call preserves the subscription-count invariant. -/
theorem addDep_preserves_subCount (p : WatcherB × DepsState)
    (h : SubCountInv p) (r : ℕ) : SubCountInv (Watcher.addDep p r) := by
  simp only [Watcher.addDep]
  by_cases hr : r ∈ p.1.newDepIds
  · rw [if_pos hr]
    exact h
  · rw [if_neg hr]
    by_cases hd : r ∈ p.1.depIds
    · rw [if_pos hd]
      intro d
      by_cases hdr : d = r
      · subst hdr
        have := h d
        simp only [Finset.mem_union, hd, true_or, if_pos] at this
        simp only [this]
        simp [hd]
      · have := h d
        simpa [Finset.mem_insert, hdr] using this
    · rw [if_neg hd]
      intro d
      by_cases hdr : d = r
      · subst hdr
        have h0 : ((p.2.subs d).count p.1.wid) = 0 := by
          have := h d
          simp [Finset.mem_union, hd, hr] at this
          exact this
        have hnm : p.1.wid ∉ p.2.subs d := by
          rw [← List.count_eq_zero]
          exact h0
        simp only [DepsState.addSub, if_neg hnm]
        simp [Function.update_same, List.count_append, h0]
      · have := h d
        simp only [DepsState.addSub]
        split
        · simpa [Finset.mem_insert, hdr] using this
        · simp only [Function.update_noteq hdr]
          simpa [Finset.mem_insert, hdr] using this

/-- The subscription-count invariant is preserved by a whole read trace. -/
theorem addDep_foldl_subCount (reads : List ℕ) (p : WatcherB × DepsState)
    (h : SubCountInv p) : SubCountInv (reads.foldl Watcher.addDep p) := by
  induction reads generalizing p with
  | nil => exact h
  | cons r rest ih =>
    rw [List.foldl_cons]
    exact ih _ (addDep_preserves_subCount p h r)

/-- Effect of the `cleanupDeps` removal loop on the watcher's count in each
subscriber list: one occurrence is erased exactly for deps in the walked
list that were not read this cycle. -/
theorem cleanup_foldr_count (wid : ℕ) (ids : Finset ℕ) (deps : List ℕ)
    (S : DepsState) (d : ℕ) :
    deps.Nodup →
    (((deps.foldr (fun e T => if e ∈ ids then T else T.removeSub e wid) S).subs
        d).count wid) =
      if d ∈ deps ∧ d ∉ ids then ((S.subs d).count wid) - 1
      else (S.subs d).count wid := by
  induction deps with
  | nil =>
    intro _
    simp
  | cons a rest ih =>
    intro hnd
    have hnd' : rest.Nodup := (List.nodup_cons.mp hnd).2
    have ha : a ∉ rest := (List.nodup_cons.mp hnd).1
    simp only [List.foldr_cons]
    by_cases hai : a ∈ ids
    · rw [if_pos hai, ih hnd']
      by_cases hda : d = a
      · subst hda
        simp [ha, hai]
      · simp only [List.mem_cons]
        by_cases hdr : d ∈ rest ∧ d ∉ ids
        · simp [hdr.1, hdr.2]
        · rw [if_neg hdr, if_neg]
          rintro ⟨hd1, hd2⟩
          rcases hd1 with h | h
          · exact hda h
          · exact hdr ⟨h, hd2⟩
    · rw [if_neg hai]
      have hrm1 : ∀ T : DepsState,
          ((T.removeSub a wid).subs a).count wid = ((T.subs a).count wid) - 1 := by
        intro T
        simp [DepsState.removeSub, Function.update_same, List.count_erase_self]
      have hrm2 : ∀ T : DepsState, d ≠ a → (T.removeSub a wid).subs d = T.subs d := by
        intro T hne
        simp [DepsState.removeSub, Function.update_noteq hne]
      by_cases hda : d = a
      · subst hda
        rw [hrm1, ih hnd']
        simp [ha, hai]
      · rw [hrm2 _ hda, ih hnd']
        simp only [List.mem_cons]
        by_cases hdr : d ∈ rest ∧ d ∉ ids
        · simp [hdr.1, hdr.2]
        · rw [if_neg hdr, if_neg]
          rintro ⟨hd1, hd2⟩
          rcases hd1 with h | h
          · exact hda h
          · exact hdr ⟨h, hd2⟩

/-- Well-formedness of a watcher between evaluations: the previous-cycle
list is duplicate-free and mirrors `depIds`, the current-cycle bookkeeping
is empty, and the watcher sits in exactly the subscriber lists of its
`depIds`. -/
structure WatcherWf (w : WatcherB) (S : DepsState) : Prop where
  nodup : w.deps.Nodup
  depsIds : w.deps.toFinset = w.depIds
  newDepsNil : w.newDeps = []
  newDepIdsEmpty : w.newDepIds = ∅
  subCount : ∀ d, ((S.subs d).count w.wid) = if d ∈ w.depIds then 1 else 0

/-- C1: after any completed `Watcher.get` (whatever the getter's outcome,
including a throw), the watcher subscribes to exactly the deps read during
that evaluation: every dep read has it in its subscriber list, every dep
subscribed in the previous cycle but not read has had it removed, and the
watcher is well-formed again for the next cycle with its dep-id set equal
to the ids read. -/
theorem watcher_subscription_consistency (user : Bool) (expression vm : String)
    (w : WatcherB) (S : DepsState) (reads : List ℕ)
    (outcome : Except String JVal) (hwf : WatcherWf w S) :
    (∀ d,
      w.wid ∈
        ((Watcher.get user expression vm w S reads outcome).2.1.2).subs d ↔
      d ∈ reads) ∧
    WatcherWf ((Watcher.get user expression vm w S reads outcome).2.1.1)
      ((Watcher.get user expression vm w S reads outcome).2.1.2) ∧
    ((Watcher.get user expression vm w S reads outcome).2.1.1).depIds =
      reads.toFinset := by
  have hbk : (Watcher.get user expression vm w S reads outcome).2.1 =
      Watcher.getB w S reads := by
    cases outcome with
    | ok v => rfl
    | error e =>
      simp only [Watcher.get]
      split <;> rfl
  rw [hbk]
  obtain ⟨hwid, hactive, hdepIds, hdeps⟩ := addDep_foldl_fixed reads (w, S)
  have hnids : ((reads.foldl Watcher.addDep (w, S)).1).newDepIds =
      reads.toFinset := by
    rw [addDep_foldl_newDepIds reads (w, S)]
    show w.newDepIds ∪ reads.toFinset = reads.toFinset
    rw [hwf.newDepIdsEmpty, Finset.empty_union]
  have hnew := addDep_foldl_newDeps reads (w, S)
    (by show w.newDeps.Nodup; rw [hwf.newDepsNil]; exact List.nodup_nil)
    (by show w.newDeps.toFinset = w.newDepIds
        rw [hwf.newDepsNil, hwf.newDepIdsEmpty]; rfl)
  have hsc0 : SubCountInv (w, S) := by
    intro d
    show (S.subs d).count w.wid = if d ∈ w.depIds ∪ w.newDepIds then 1 else 0
    rw [hwf.newDepIdsEmpty, Finset.union_empty]
    exact hwf.subCount d
  have hsc := addDep_foldl_subCount reads (w, S) hsc0
  have hGB2 : (Watcher.getB w S reads).2 =
      ((reads.foldl Watcher.addDep (w, S)).1).deps.foldr
        (fun e T =>
          if e ∈ ((reads.foldl Watcher.addDep (w, S)).1).newDepIds then T
          else T.removeSub e ((reads.foldl Watcher.addDep (w, S)).1).wid)
        ((reads.foldl Watcher.addDep (w, S)).2) := rfl
  have hndq : (((reads.foldl Watcher.addDep (w, S)).1).deps).Nodup := by
    rw [hdeps]; exact hwf.nodup
  have hcln := cleanup_foldr_count ((reads.foldl Watcher.addDep (w, S)).1).wid
    ((reads.foldl Watcher.addDep (w, S)).1).newDepIds
    ((reads.foldl Watcher.addDep (w, S)).1).deps
    ((reads.foldl Watcher.addDep (w, S)).2)
  have hfin : ∀ d, (((Watcher.getB w S reads).2).subs d).count w.wid =
      if d ∈ reads.toFinset then 1 else 0 := by
    intro d
    rw [hGB2, ← hwid, hcln d hndq]
    have hq := hsc d
    rw [show ((reads.foldl Watcher.addDep (w, S)).1.depIds) = w.depIds from
      hdepIds] at hq
    rw [hnids] at hq
    rw [hdeps, hnids]
    by_cases h1 : d ∈ w.deps
    · have h1' : d ∈ w.depIds := hwf.depsIds ▸ List.mem_toFinset.mpr h1
      by_cases h2 : d ∈ reads.toFinset
      · rw [if_neg (by tauto), hq, if_pos (Finset.mem_union_right _ h2),
          if_pos h2]
      · rw [if_pos ⟨h1, h2⟩, hq, if_pos (Finset.mem_union_left _ h1'),
          if_neg h2]
    · have h1' : d ∉ w.depIds := fun hc =>
        h1 (List.mem_toFinset.mp (hwf.depsIds ▸ hc))
      rw [if_neg (by tauto), hq]
      by_cases h2 : d ∈ reads.toFinset
      · rw [if_pos (Finset.mem_union_right _ h2), if_pos h2]
      · rw [if_neg (by simp [h1', h2]), if_neg h2]
  have hmem : ∀ d,
      w.wid ∈ ((Watcher.getB w S reads).2).subs d ↔ d ∈ reads := by
    intro d
    constructor
    · intro hm
      by_contra hnr
      have h2 : d ∉ reads.toFinset := fun hc => hnr (List.mem_toFinset.mp hc)
      have h0 : (((Watcher.getB w S reads).2).subs d).count w.wid = 0 := by
        rw [hfin d, if_neg h2]
      exact (List.count_eq_zero.mp h0) hm
    · intro hr
      have h2 : d ∈ reads.toFinset := List.mem_toFinset.mpr hr
      have hc1 : (((Watcher.getB w S reads).2).subs d).count w.wid = 1 := by
        rw [hfin d, if_pos h2]
      by_contra hnm
      rw [List.count_eq_zero.mpr hnm] at hc1
      exact absurd hc1 (by decide)
  refine ⟨hmem, ?_, ?_⟩
  · refine ⟨?_, ?_, rfl, rfl, ?_⟩
    · show ((reads.foldl Watcher.addDep (w, S)).1).newDeps.Nodup
      exact hnew.1
    · show ((reads.foldl Watcher.addDep (w, S)).1).newDeps.toFinset =
        ((reads.foldl Watcher.addDep (w, S)).1).newDepIds
      exact hnew.2
    · intro d
      show (((Watcher.getB w S reads).2).subs d).count
          ((reads.foldl Watcher.addDep (w, S)).1).wid =
        if d ∈ ((reads.foldl Watcher.addDep (w, S)).1).newDepIds then 1 else 0
      rw [hwid, hnids]
      exact hfin d
  · show ((reads.foldl Watcher.addDep (w, S)).1).newDepIds = reads.toFinset
    exact hnids

/-- Witness for C1: with dep 3 previously subscribed and reads `[1, 2, 1]`,
after evaluation the watcher subscribes to dep 1 and no longer to dep 3. -/
theorem watcher_subscription_consistency_witness :
    (0 : ℕ) ∈
      ((Watcher.get true "x" "vm" ⟨0, true, [3], {3}, [], ∅⟩
          ⟨fun d => if d = 3 then [0] else []⟩ [1, 2, 1]
          (.ok .undefined)).2.1.2).subs 1 ∧
    (0 : ℕ) ∉
      ((Watcher.get true "x" "vm" ⟨0, true, [3], {3}, [], ∅⟩
          ⟨fun d => if d = 3 then [0] else []⟩ [1, 2, 1]
          (.ok .undefined)).2.1.2).subs 3 := by
  have hwf : WatcherWf ⟨0, true, [3], {3}, [], ∅⟩
      ⟨fun d => if d = 3 then [0] else []⟩ := by
    refine ⟨by decide, by decide, rfl, rfl, ?_⟩
    intro d
    by_cases h : d = 3
    · subst h; decide
    · simp [h]
  have h := watcher_subscription_consistency true "x" "vm"
    ⟨0, true, [3], {3}, [], ∅⟩ ⟨fun d => if d = 3 then [0] else []⟩
    [1, 2, 1] (.ok .undefined) hwf
  exact ⟨(h.1 1).mpr (by decide), fun hc => by simpa using (h.1 3).mp hc⟩

/-- C4: a computed watcher with no subscribers of its own Dep reacts to a
dependency notification by only setting `dirty` — the getter does not run;
the value is recomputed by `evaluate()` on the next read, and a second
`evaluate()` with no intervening notification returns the cached value
without running the getter again. -/
theorem computed_watcher_laziness (w : CWatcher) (hc : w.computed = true)
    (hs : w.depSubs = 0) :
    Watcher.update w = ({ w with dirty := true }, .lazyDirty) ∧
    (Watcher.evaluate (Watcher.update w).1).2.runCount = w.runCount + 1 ∧
    (Watcher.evaluate (Watcher.update w).1).1 = w.getterVal ∧
    Watcher.evaluate (Watcher.evaluate (Watcher.update w).1).2 =
      Watcher.evaluate (Watcher.update w).1 := by
  have hupd : Watcher.update w = ({ w with dirty := true }, .lazyDirty) := by
    simp [Watcher.update, hc, hs]
  refine ⟨hupd, ?_, ?_, ?_⟩
  · rw [hupd]
    simp [Watcher.evaluate]
  · rw [hupd]
    simp [Watcher.evaluate]
  · rw [hupd]
    simp [Watcher.evaluate]

/-- Witness for C4 at a concrete computed watcher. -/
theorem computed_watcher_laziness_witness :
    Watcher.update ⟨true, false, false, false, .num 0, .num 5, 0, 0⟩ =
      (⟨true, false, false, true, .num 0, .num 5, 0, 0⟩, .lazyDirty) ∧
    (Watcher.evaluate
        (Watcher.update
          ⟨true, false, false, false, .num 0, .num 5, 0, 0⟩).1).2.runCount =
      0 + 1 ∧
    (Watcher.evaluate
        (Watcher.update
          ⟨true, false, false, false, .num 0, .num 5, 0, 0⟩).1).1 = .num 5 ∧
    Watcher.evaluate
        (Watcher.evaluate
          (Watcher.update
            ⟨true, false, false, false, .num 0, .num 5, 0, 0⟩).1).2 =
      Watcher.evaluate
        (Watcher.update ⟨true, false, false, false, .num 0, .num 5, 0, 0⟩).1 :=
  computed_watcher_laziness ⟨true, false, false, false, .num 0, .num 5, 0, 0⟩
    rfl rfl

/-- The `teardown` removal loop: after folding `removeSub` over the dep
list, the watcher occurs in no subscriber list of a dep from that list,
provided it occurred at most once before. -/
theorem teardown_foldr_count (wid : ℕ) (deps : List ℕ) (S : DepsState)
    (hcnt : ∀ d, ((S.subs d).count wid) ≤ 1) :
    ∀ d, (((deps.foldr (fun e T => T.removeSub e wid) S).subs d).count wid) =
      if d ∈ deps then 0 else (S.subs d).count wid := by
  induction deps with
  | nil => simp
  | cons a rest ih =>
    intro d
    simp only [List.foldr_cons]
    have hrm1 : ∀ T : DepsState,
        ((T.removeSub a wid).subs a).count wid = ((T.subs a).count wid) - 1 := by
      intro T
      simp [DepsState.removeSub, Function.update_same, List.count_erase_self]
    have hrm2 : ∀ T : DepsState, d ≠ a →
        (T.removeSub a wid).subs d = T.subs d := by
      intro T hne
      simp [DepsState.removeSub, Function.update_noteq hne]
    by_cases hda : d = a
    · subst hda
      rw [hrm1, ih d, if_pos (List.mem_cons_self d rest)]
      by_cases hdr : d ∈ rest
      · simp [hdr]
      · have := hcnt d
        rw [if_neg hdr]
        omega
    · rw [hrm2 _ hda, ih d]
      by_cases hdr : d ∈ rest
      · rw [if_pos hdr, if_pos (List.mem_cons_of_mem a hdr)]
      · have hnc : d ∉ a :: rest := by
          simp [List.mem_cons, hda, hdr]
        rw [if_neg hdr, if_neg hnc]

/-- C9: tearing down an active watcher removes it from the subscriber list
of every dep it subscribes to and marks it inactive; tearing down the
result again is a no-op; and `run()` on a torn-down watcher never executes
the job body, so the callback can no longer fire. -/
theorem watcher_teardown_spec (w : TWatcher) (vm : VmState) (S : DepsState)
    (hact : w.active = true)
    (hcnt : ∀ d, ((S.subs d).count w.wid) ≤ 1)
    (hsub : ∀ d, w.wid ∈ S.subs d → d ∈ w.deps) :
    (∀ d, w.wid ∉ ((Watcher.teardown w vm S).2.2).subs d) ∧
    ((Watcher.teardown w vm S).1.active = false) ∧
    (Watcher.teardown (Watcher.teardown w vm S).1
        (Watcher.teardown w vm S).2.1 (Watcher.teardown w vm S).2.2 =
      Watcher.teardown w vm S) ∧
    (Watcher.run (Watcher.teardown w vm S).1 = false) := by
  have hS : (Watcher.teardown w vm S).2.2 =
      w.deps.foldr (fun e T => T.removeSub e w.wid) S := by
    simp [Watcher.teardown, hact]
  have hw : (Watcher.teardown w vm S).1 = { w with active := false } := by
    simp [Watcher.teardown, hact]
  refine ⟨?_, ?_, ?_, ?_⟩
  · intro d hm
    rw [hS] at hm
    have hcount := teardown_foldr_count w.wid w.deps S hcnt d
    by_cases hd : d ∈ w.deps
    · rw [if_pos hd] at hcount
      exact (List.count_eq_zero.mp hcount) hm
    · rw [if_neg hd] at hcount
      have hmem : w.wid ∈ S.subs d := by
        by_contra hnm
        rw [List.count_eq_zero.mpr hnm] at hcount
        exact (List.count_eq_zero.mp hcount) hm
      exact hd (hsub d hmem)
  · rw [hw]
  · have hno : ∀ (w' : TWatcher) (vm' : VmState) (S' : DepsState),
        w'.active = false → Watcher.teardown w' vm' S' = (w', vm', S') := by
      intro w' vm' S' h
      simp [Watcher.teardown, h]
    rw [hno _ _ _ (by rw [hw])]
  · rw [hw]
    rfl

/-- Witness for C9: watcher 5 subscribed to dep 2 is fully unsubscribed,
inactive, and its job body no longer runs. -/
theorem watcher_teardown_spec_witness :
    ((5 : ℕ) ∉
      ((Watcher.teardown ⟨5, true, [2]⟩ ⟨[5], false⟩
          ⟨fun d => if d = 2 then [5] else []⟩).2.2).subs 2) ∧
    ((Watcher.teardown ⟨5, true, [2]⟩ ⟨[5], false⟩
        ⟨fun d => if d = 2 then [5] else []⟩).1.active = false) ∧
    (Watcher.run (Watcher.teardown ⟨5, true, [2]⟩ ⟨[5], false⟩
        ⟨fun d => if d = 2 then [5] else []⟩).1 = false) := by
  have h := watcher_teardown_spec ⟨5, true, [2]⟩ ⟨[5], false⟩
    ⟨fun d => if d = 2 then [5] else []⟩ rfl
    (by
      intro d
      by_cases hd : d = 2
      · subst hd; decide
      · simp [hd])
    (by
      intro d hm
      by_cases hd : d = 2
      · subst hd; decide
      · simp [hd] at hm)
  exact ⟨h.1 2, h.2.1, h.2.2.2⟩

/-- C7 counterexample: the claim as stated says that when observation is
globally disabled `observe` returns nothing — but a container that already
carries an `__ob__` Observer still has that Observer returned even with
`shouldObserve` off. -/
theorem observe_disabled_counterexample :
    ¬ ∀ (v : OValue) (env : OEnv) (asRoot : Bool),
        env.shouldObserve = false → (observe v env asRoot).1 = none := by
  intro hclaim
  have h := hclaim ⟨true, false, some 0, true, true, false⟩
    ⟨false, false, 1⟩ false rfl
  simp [observe] at h

/-- C7 (amended): `observe` returns nothing and attaches nothing for
non-objects and VNodes; a container already carrying an Observer gets that
same instance back and no second Observer is ever created for it; and when
observation is globally disabled a value with no attached Observer gets
nothing attached and nothing returned. -/
theorem observe_reuse_and_guards (v : OValue) (env : OEnv) (asRoot : Bool) :
    ((v.isObj = false ∨ v.isVNode = true) →
      observe v env asRoot = (none, false, false)) ∧
    (∀ k, v.isObj = true → v.isVNode = false → v.ob = some k →
      observe v env asRoot = (some k, false, asRoot)) ∧
    (env.shouldObserve = false → v.ob = none →
      (observe v env asRoot).1 = none ∧ (observe v env asRoot).2.1 = false) := by
  refine ⟨?_, ?_, ?_⟩
  · rintro (h | h) <;> simp [observe, h]
  · intro k h1 h2 h3
    simp [observe, h1, h2, h3]
  · intro h1 h2
    by_cases ho : (!v.isObj || v.isVNode) = true
    · simp [observe, ho]
    · simp only [observe, ho, if_false, h2, h1]
      simp

/-- Witness for C7 (amended) at concrete values. -/
theorem observe_reuse_and_guards_witness :
    observe ⟨false, false, none, false, true, false⟩ ⟨true, false, 7⟩ false =
      (none, false, false) ∧
    observe ⟨true, false, some 3, true, true, false⟩ ⟨true, false, 7⟩ true =
      (some 3, false, true) ∧
    (observe ⟨true, false, none, true, true, false⟩ ⟨false, false, 7⟩ false).1 =
      none :=
  ⟨(observe_reuse_and_guards _ _ _).1 (Or.inl rfl),
   (observe_reuse_and_guards _ _ _).2.1 3 rfl rfl rfl,
   ((observe_reuse_and_guards ⟨true, false, none, true, true, false⟩
      ⟨false, false, 7⟩ false).2.2 rfl rfl).1⟩

/-- The empty heap. -/
def emptyHeap : Heap := ⟨fun _ => none, fun _ => none⟩

/-- C3 counterexample: `set` on a primitive target warns but then throws a
`TypeError` at the `key in target` test instead of being a no-op, and
`del` on `undefined` throws when reading `target.__ob__`. -/
theorem set_non_container_counterexample :
    (jsSet emptyHeap (.num 5) "a" (.num 1)).1.warnedNonContainer = true ∧
    (jsSet emptyHeap (.num 5) "a" (.num 1)).2 =
      .error "TypeError: cannot use in operator on non-object" ∧
    (jsDel emptyHeap .undefined "a").2 =
      .error "TypeError: cannot read __ob__ of undefined" :=
  ⟨rfl, rfl, rfl⟩

/-- C3 (amended): on an undefined, null or primitive target, `set` and
`del` report the non-container warning; `set` then throws a `TypeError`
(as does `del` on undefined/null).  `del` on a non-null primitive is a
warn-and-no-op exactly when the key is not an own property of the boxed
primitive (always the case for numbers, NaN and booleans); for a string
primitive whose key is an own index or `length` property, the `delete`
is reached and throws a `TypeError` in strict-mode module code. -/
theorem set_del_non_container (h : Heap) (t : JVal) (key : String) (v : JVal)
    (ht : t.isUndef = true ∨ t.isPrimitive = true) :
    ((jsSet h t key v).1.warnedNonContainer = true ∧
      ∃ m, (jsSet h t key v).2 = Except.error m) ∧
    (t.isUndef = true →
      (jsDel h t key).1.warnedNonContainer = true ∧
      ∃ m, (jsDel h t key).2 = Except.error m) ∧
    (t.isPrimitive = true →
      (hasOwnOf h t key = false →
        jsDel h t key = (initEffects true, .ok h)) ∧
      (hasOwnOf h t key = true →
        (jsDel h t key).1.warnedNonContainer = true ∧
        ∃ m, (jsDel h t key).2 = Except.error m)) := by
  cases t with
  | undefined =>
    exact ⟨⟨rfl, ⟨_, rfl⟩⟩, fun _ => ⟨rfl, ⟨_, rfl⟩⟩,
      fun hp => absurd hp (by decide)⟩
  | nul =>
    exact ⟨⟨rfl, ⟨_, rfl⟩⟩, fun _ => ⟨rfl, ⟨_, rfl⟩⟩,
      fun hp => absurd hp (by decide)⟩
  | bool b =>
    refine ⟨⟨rfl, ⟨_, rfl⟩⟩, fun hu => absurd hu (by simp [JVal.isUndef]),
      fun _ => ⟨fun _ => ?_, fun hh => absurd hh (by simp [hasOwnOf])⟩⟩
    simp [jsDel, delRest, readOb, isVueOf, hasOwnOf, initEffects,
      JVal.isUndef, JVal.isPrimitive]
  | nan =>
    refine ⟨⟨rfl, ⟨_, rfl⟩⟩, fun hu => absurd hu (by simp [JVal.isUndef]),
      fun _ => ⟨fun _ => ?_, fun hh => absurd hh (by simp [hasOwnOf])⟩⟩
    simp [jsDel, delRest, readOb, isVueOf, hasOwnOf, initEffects,
      JVal.isUndef, JVal.isPrimitive]
  | num q =>
    refine ⟨⟨rfl, ⟨_, rfl⟩⟩, fun hu => absurd hu (by simp [JVal.isUndef]),
      fun _ => ⟨fun _ => ?_, fun hh => absurd hh (by simp [hasOwnOf])⟩⟩
    simp [jsDel, delRest, readOb, isVueOf, hasOwnOf, initEffects,
      JVal.isUndef, JVal.isPrimitive]
  | str s =>
    refine ⟨⟨rfl, ⟨_, rfl⟩⟩, fun hu => absurd hu (by simp [JVal.isUndef]),
      fun _ => ⟨fun hh => ?_, fun hh => ⟨?_, ?_⟩⟩⟩
    · show (if !hasOwnOf h (JVal.str s) key then
          (initEffects true, Except.ok h)
        else (initEffects true,
          Except.error "TypeError: cannot delete property of a string")) =
        (initEffects true, Except.ok h)
      rw [hh]
      rfl
    · show ((if !hasOwnOf h (JVal.str s) key then
          (initEffects true, Except.ok h)
        else (initEffects true,
          Except.error
            "TypeError: cannot delete property of a string")).1).warnedNonContainer =
        true
      rw [hh]
      rfl
    · refine ⟨"TypeError: cannot delete property of a string", ?_⟩
      show (if !hasOwnOf h (JVal.str s) key then
          (initEffects true, Except.ok h)
        else (initEffects true,
          Except.error "TypeError: cannot delete property of a string")).2 =
        _
      rw [hh]
      rfl
  | obj i => simp [JVal.isUndef, JVal.isPrimitive] at ht
  | arr i => simp [JVal.isUndef, JVal.isPrimitive] at ht

/-- Witness for C3 (amended) at concrete primitive targets: on the string
`"x"`, key `"a"` is a warn-and-no-op while key `"0"` (an own boxed-string
property) throws. -/
theorem set_del_non_container_witness :
    (((jsSet emptyHeap (.str "x") "a" (.num 1)).1.warnedNonContainer = true ∧
      ∃ m, (jsSet emptyHeap (.str "x") "a" (.num 1)).2 = Except.error m) ∧
    ((JVal.str "x").isUndef = true →
      (jsDel emptyHeap (.str "x") "a").1.warnedNonContainer = true ∧
      ∃ m, (jsDel emptyHeap (.str "x") "a").2 = Except.error m) ∧
    ((JVal.str "x").isPrimitive = true →
      (hasOwnOf emptyHeap (.str "x") "a" = false →
        jsDel emptyHeap (.str "x") "a" = (initEffects true, .ok emptyHeap)) ∧
      (hasOwnOf emptyHeap (.str "x") "a" = true →
        (jsDel emptyHeap (.str "x") "a").1.warnedNonContainer = true ∧
        ∃ m, (jsDel emptyHeap (.str "x") "a").2 = Except.error m))) ∧
    ((jsDel emptyHeap (.str "x") "0").1.warnedNonContainer = true ∧
      ∃ m, (jsDel emptyHeap (.str "x") "0").2 = Except.error m) :=
  ⟨set_del_non_container emptyHeap (.str "x") "a" (.num 1) (Or.inr rfl),
   ((set_del_non_container emptyHeap (.str "x") "0" (.num 1)
      (Or.inr rfl)).2.2 rfl).2 (by decide)⟩

/-- C10: `set` with a new key on a Vue instance or on an observed object
serving as root state (`vmCount > 0`) warns, returns the value, and leaves
the heap completely unchanged: no property added, nothing made reactive,
no notification. -/
theorem set_root_or_vm_guard (h : Heap) (i : ℕ) (o : PlainObj)
    (key : String) (v : JVal)
    (ho : h.objs i = some o)
    (hk : (o.fields.map Prod.fst).contains key = false)
    (hg : o.isVue = true ∨ (o.hasOb = true ∧ o.vmCount ≠ 0)) :
    jsSet h (.obj i) key v =
      ({ initEffects false with warnedAvoidAdd := true }, .ok (h, v)) := by
  have hin : keyInTarget h (.obj i) key = .ok (protoKeys.contains key) := by
    show Except.ok ((h.objs i).elim false fun o' =>
      (o'.fields.map Prod.fst).contains key || protoKeys.contains key) = _
    rw [ho]
    show Except.ok ((o.fields.map Prod.fst).contains key ||
      protoKeys.contains key) = _
    rw [hk, Bool.false_or]
  have hcond : (protoKeys.contains key && !protoKeys.contains key) = false := by
    cases hpk : protoKeys.contains key <;> simp
  have hguard :
      (isVueOf h (.obj i) ||
        (((h.objs i).bind fun o' =>
            if o'.hasOb then some o'.vmCount else none).elim false
          fun c => c != 0)) = true := by
    rcases hg with hv | ⟨hob, hvc⟩
    · simp [isVueOf, ho, hv]
    · simp [isVueOf, ho, hob, hvc]
  show setRest h (.obj i) key v (initEffects false) = _
  rw [setRest, hin]
  simp only [hcond, if_false, readOb, hguard, if_true]
  rfl

/-- Witness for C10 on a concrete root-state object. -/
theorem set_root_or_vm_guard_witness :
    jsSet
        ⟨fun j => if j = 0 then
            some ⟨[("a", JVal.num 1)], true, 1, false⟩ else none,
          fun _ => none⟩
        (.obj 0) "b" (.num 2) =
      ({ initEffects false with warnedAvoidAdd := true },
        .ok (⟨fun j => if j = 0 then
            some ⟨[("a", JVal.num 1)], true, 1, false⟩ else none,
          fun _ => none⟩, .num 2)) :=
  set_root_or_vm_guard _ 0 ⟨[("a", JVal.num 1)], true, 1, false⟩ "b" (.num 2)
    (by simp) (by decide) (Or.inr ⟨rfl, by decide⟩)

/-- Unfolding equation for `traverseF` on a reference. -/
theorem traverseF_ref_eq (fuel : ℕ) (h : THeap) (i : ℕ) (seen : Finset ℕ) :
    traverseF (fuel + 1) h (.ref i) seen =
      match h.nodes i with
      | none => some seen
      | some node =>
        if node.frozen || node.isVNode then some seen
        else
          match node.depId with
          | some d =>
            if d ∈ seen then some seen
            else node.kids.reverse.foldlM (fun s k => traverseF fuel h k s)
              (insert d seen)
          | none =>
            node.kids.reverse.foldlM (fun s k => traverseF fuel h k s) seen :=
  rfl

/-- On a fully observed heap, fuel exceeding the number of unvisited dep
ids suffices: `_traverse` completes and only grows the visited set — the
termination argument provided by the per-call visited set. -/
theorem traverseF_total (h : THeap) (D : Finset ℕ) (hD : ObservedHeap h D) :
    ∀ (fuel : ℕ) (v : TVal) (seen : Finset ℕ),
      (D \ seen).card < fuel →
      ∃ s', traverseF fuel h v seen = some s' ∧ seen ⊆ s' := by
  intro fuel
  induction fuel with
  | zero =>
    intro v seen hlt
    exact absurd hlt (Nat.not_lt_zero _)
  | succ f ih =>
    have hfold : ∀ (kids : List TVal) (s : Finset ℕ), (D \ s).card < f →
        ∃ s', kids.foldlM (fun s k => traverseF f h k s) s = some s' ∧
          s ⊆ s' := by
      intro kids
      induction kids with
      | nil =>
        intro s hs
        exact ⟨s, rfl, Finset.Subset.refl s⟩
      | cons k ks ihk =>
        intro s hs
        obtain ⟨s1, hs1, hsub1⟩ := ih k s hs
        have hmono : D \ s1 ⊆ D \ s :=
          Finset.sdiff_subset_sdiff (Finset.Subset.refl D) hsub1
        have hs1lt : (D \ s1).card < f :=
          lt_of_le_of_lt (Finset.card_le_card hmono) hs
        obtain ⟨s2, hs2, hsub2⟩ := ihk s1 hs1lt
        refine ⟨s2, ?_, hsub1.trans hsub2⟩
        rw [List.foldlM_cons, hs1]
        exact hs2
    intro v seen hlt
    cases v with
    | prim => exact ⟨seen, rfl, Finset.Subset.refl seen⟩
    | ref i =>
      rw [traverseF_ref_eq]
      cases hn : h.nodes i with
      | none => exact ⟨seen, rfl, Finset.Subset.refl seen⟩
      | some node =>
        obtain ⟨kids, frozen, vnode, depId⟩ := node
        cases frozen with
        | true => exact ⟨seen, rfl, Finset.Subset.refl seen⟩
        | false =>
          cases vnode with
          | true => exact ⟨seen, rfl, Finset.Subset.refl seen⟩
          | false =>
            obtain ⟨d, hd, hdD⟩ :=
              hD i ⟨kids, false, false, depId⟩ hn rfl rfl
            have hd' : depId = some d := hd
            subst hd'
            by_cases hds : d ∈ seen
            · refine ⟨seen, ?_, Finset.Subset.refl seen⟩
              show (if d ∈ seen then some seen
                else kids.reverse.foldlM (fun s k => traverseF f h k s)
                  (insert d seen)) = some seen
              rw [if_pos hds]
            · have hdm : d ∈ D \ seen := Finset.mem_sdiff.mpr ⟨hdD, hds⟩
              have hcard : (D \ insert d seen).card < f := by
                have heq : D \ insert d seen = (D \ seen).erase d := by
                  ext x
                  simp only [Finset.mem_sdiff, Finset.mem_insert,
                    Finset.mem_erase]
                  tauto
                have hpos : 0 < (D \ seen).card :=
                  Finset.card_pos.mpr ⟨d, hdm⟩
                rw [heq, Finset.card_erase_of_mem hdm]
                omega
              obtain ⟨s', hs', hsub⟩ := hfold kids.reverse (insert d seen) hcard
              refine ⟨s', ?_, (Finset.subset_insert d seen).trans hsub⟩
              show (if d ∈ seen then some seen
                else kids.reverse.foldlM (fun s k => traverseF f h k s)
                  (insert d seen)) = some s'
              rw [if_neg hds]
              exact hs'

/-- C8 (amended): on a fully observed container graph — cycles included —
`traverse` terminates whenever the fuel exceeds the number of structural
Dep ids, and leaves the module-level visited set empty afterwards; and a
container whose Dep id is already in the visited set is not re-descended:
the call returns with the set unchanged.  (Observation is required: only
`__ob__` dep ids enter the visited set, so a cycle of unobserved
containers diverges — see the counterexample below.) -/
theorem traverse_cycle_safe (h : THeap) (D : Finset ℕ) (fuel : ℕ) (v : TVal)
    (i : ℕ) (node : TNode) (d : ℕ) (seen : Finset ℕ)
    (hD : ObservedHeap h D) (hfuel : D.card < fuel)
    (hn : h.nodes i = some node) (hd : node.depId = some d)
    (hds : d ∈ seen) :
    traverse h fuel v ∅ = some ∅ ∧
    traverseF fuel h (.ref i) seen = some seen := by
  constructor
  · have hlt : (D \ (∅ : Finset ℕ)).card < fuel := by
      rwa [Finset.sdiff_empty]
    obtain ⟨s', hs', _⟩ := traverseF_total h D hD fuel v ∅ hlt
    rw [traverse, hs']
    rfl
  · obtain ⟨f, rfl⟩ : ∃ f, fuel = f + 1 := ⟨fuel - 1, by omega⟩
    rw [traverseF_ref_eq, hn]
    obtain ⟨kids, frozen, vnode, depId⟩ := node
    have hd' : depId = some d := hd
    subst hd'
    cases frozen with
    | true => rfl
    | false =>
      cases vnode with
      | true => rfl
      | false =>
        show (if d ∈ seen then some seen
          else kids.reverse.foldlM (fun s k => traverseF f h k s)
            (insert d seen)) = some seen
        rw [if_pos hds]

/-- A two-node cyclic heap of unobserved containers: neither carries an
`__ob__`, so `_traverse` has no dep id to record. -/
def unobservedCycle : THeap :=
  ⟨fun i =>
    if i = 0 then some ⟨[.ref 1], false, false, none⟩
    else if i = 1 then some ⟨[.ref 0], false, false, none⟩
    else none⟩

/-- On the unobserved cycle `_traverse` exhausts any fuel from either
entry point and any visited set: nothing is ever added to `seen`, so the
recursion `ref 0 → ref 1 → ref 0 → …` never returns — the fuelled
embedding's rendering of unbounded recursion. -/
theorem traverseF_unobservedCycle (fuel : ℕ) :
    ∀ seen : Finset ℕ,
      traverseF fuel unobservedCycle (.ref 0) seen = none ∧
      traverseF fuel unobservedCycle (.ref 1) seen = none := by
  induction fuel with
  | zero =>
    intro seen
    exact ⟨rfl, rfl⟩
  | succ f ih =>
    intro seen
    constructor
    · show List.foldlM (fun s k => traverseF f unobservedCycle k s) seen
        [TVal.ref 1] = none
      rw [List.foldlM_cons]
      show traverseF f unobservedCycle (.ref 1) seen >>=
        (fun s' => List.foldlM
          (fun s k => traverseF f unobservedCycle k s) s' []) = none
      rw [(ih seen).2]
      rfl
    · show List.foldlM (fun s k => traverseF f unobservedCycle k s) seen
        [TVal.ref 0] = none
      rw [List.foldlM_cons]
      show traverseF f unobservedCycle (.ref 0) seen >>=
        (fun s' => List.foldlM
          (fun s k => traverseF f unobservedCycle k s) s' []) = none
      rw [(ih seen).1]
      rfl

/-- C8 counterexample: on a concrete cyclic graph of unobserved containers
— two plain containers referencing each other, no `__ob__` anywhere — the
claim's universal termination fails: the traversal exhausts even a fuel of
1000 (any fuel, by `traverseF_unobservedCycle`), because no dep id is ever
recorded in the visited set. -/
theorem traverse_unobserved_cycle_counterexample :
    traverse unobservedCycle 1000 (.ref 0) ∅ = none ∧
    traverseF 1000 unobservedCycle (.ref 0) ∅ = none := by
  have h := (traverseF_unobservedCycle 1000 ∅).1
  constructor
  · show (traverseF 1000 unobservedCycle (.ref 0) ∅).map
      (fun _ => (∅ : Finset ℕ)) = none
    rw [h]
    rfl
  · exact h

/-- A two-node cyclic heap: container 0 references container 1 and vice
versa, both observed. -/
def cyclicHeap : THeap :=
  ⟨fun i =>
    if i = 0 then some ⟨[.ref 1], false, false, some 10⟩
    else if i = 1 then some ⟨[.ref 0], false, false, some 11⟩
    else none⟩

/-- Witness for C8 on the concrete cyclic heap. -/
theorem traverse_cycle_safe_witness :
    traverse cyclicHeap 3 (.ref 0) ∅ = some ∅ ∧
    traverseF 3 cyclicHeap (.ref 0) {10} = some {10} := by
  refine traverse_cycle_safe cyclicHeap {10, 11} 3 (.ref 0) 0
    ⟨[.ref 1], false, false, some 10⟩ 10 {10} ?_ (by decide) rfl rfl (by decide)
  intro i n hn hf hv
  by_cases h0 : i = 0
  · subst h0
    have hsome : some (⟨[TVal.ref 1], false, false, some 10⟩ : TNode) =
        some n := hn
    refine ⟨10, ?_, by decide⟩
    rw [← Option.some.inj hsome]
  · by_cases h1 : i = 1
    · subst h1
      have hsome : some (⟨[TVal.ref 0], false, false, some 11⟩ : TNode) =
          some n := by
        simpa [cyclicHeap, h0] using hn
      refine ⟨11, ?_, by decide⟩
      rw [← Option.some.inj hsome]
    · exact absurd hn (by simp [cyclicHeap, h0, h1])

/-- C6: after re-evaluation the callback is invoked exactly when the new
value differs from the cached one by identity, or is a container, or the
watcher is deep; when invoked it receives the new value and the previous
value. -/
theorem getAndInvoke_fire_condition (w : GAIWatcher) (v : JVal) :
    invokedArgs (getAndInvoke w v none) =
      (if !v.jsEq w.value || v.isObject || w.deep
       then some (v, w.value) else none) := by
  by_cases h : (!v.jsEq w.value || v.isObject || w.deep) = true
  · simp [getAndInvoke, invokedArgs, h]
  · simp only [Bool.not_eq_true] at h
    simp [getAndInvoke, invokedArgs, h]

/-- C5: a user watcher's getter exception is caught and routed to
`handleError` with the watcher's expression and vm, evaluation completes
(returning `undefined`) with the dependency cleanup still performed and
the `active` flag untouched; a user watcher's callback exception is caught
and reported likewise; a non-user watcher's getter exception propagates to
the caller uncaught. -/
theorem watcher_error_containment (expression vm e : String) (w : WatcherB)
    (S : DepsState) (reads : List ℕ) (g : GAIWatcher) (v : JVal) :
    (Watcher.get true expression vm w S reads (.error e) =
      (.ok .undefined, Watcher.getB w S reads,
        [⟨e, vm, "getter for watcher \"" ++ expression ++ "\""⟩]) ∧
     ((Watcher.getB w S reads).1.active = w.active)) ∧
    (getAndInvoke { g with user := true } v (some e) =
      if !v.jsEq g.value || v.isObject || g.deep then
        .ok ({ g with user := true, value := v, dirty := false },
          some (v, g.value),
          [⟨e, g.vm, "callback for watcher \"" ++ g.expression ++ "\""⟩])
      else .ok ({ g with user := true }, none, [])) ∧
    (Watcher.get false expression vm w S reads (.error e) =
      (.error e, Watcher.getB w S reads, [])) := by
  refine ⟨⟨rfl, ?_⟩, ?_, rfl⟩
  · have hc : ∀ (p : WatcherB × DepsState) (reads : List ℕ),
        ((reads.foldl Watcher.addDep p).1).active = p.1.active := by
      intro p reads
      induction reads generalizing p with
      | nil => rfl
      | cons r rest ih =>
        rw [List.foldl_cons]
        rw [ih]
        simp only [Watcher.addDep]
        split
        · rfl
        · split <;> rfl
    simp only [Watcher.getB, Watcher.cleanupDeps, Watcher.collect]
    exact hc (w, S) reads
  · by_cases h : (!v.jsEq g.value || v.isObject || g.deep) = true
    · simp [getAndInvoke, h]
    · simp only [Bool.not_eq_true] at h
      simp [getAndInvoke, h]

end Vue
